import Mathlib

/-!
Verification of `electrumsv/wallet_database/storage_migration.py`.

The module is a backward-compatibility write layer for the wallet database.
We shallowly embed its pure content: the legacy bit-flag enums and the
flag-reconciliation step of `create_transactions1`, the per-table row
builders (including their `assert`-based validation, modelled as
`Except.error`), the JSON codec used by the `WalletData` operations
(modelled from the specification, as the Python `json` module is external
to the repository), a relational model of the `WalletData` table, and a
sequential model of the single-writer dispatcher.

Python integers are unbounded, so flag words are `Nat`; on nonnegative
ints Python's `x & ~m` is `Nat.ldiff x m`.  Python `None` on an optional
field is `Option.none`.  A failed Python `assert` is `Except.error`.
-/

namespace StorageMigration

/-! ### The legacy flag enums (`TransactionOutputFlag1`, `TxFlags1`) -/

namespace TransactionOutputFlag1

def IS_ALLOCATED : Nat := 2 ^ 1

def IS_SPENT : Nat := 2 ^ 2

def IS_FROZEN : Nat := 2 ^ 3

def IS_COINBASE : Nat := 2 ^ 4

def USER_SET_FROZEN : Nat := 2 ^ 8

def FROZEN_MASK : Nat := IS_FROZEN ||| USER_SET_FROZEN

end TransactionOutputFlag1

namespace TxFlags1

def HasFee : Nat := 2 ^ 4

def HasHeight : Nat := 2 ^ 5

def HasPosition : Nat := 2 ^ 6

def HasByteData : Nat := 2 ^ 12

def STATE_CLEARED : Nat := 2 ^ 20

def STATE_SETTLED : Nat := 2 ^ 21

def METADATA_FIELD_MASK : Nat := HasFee ||| HasHeight ||| HasPosition

end TxFlags1

/-- Python runtime values, to the extent the dynamic type checks of this
module inspect them (`type(x) is bytes`, `type(x) is str`). -/
inductive PyVal where
  | bytes : List Nat → PyVal
  | str : String → PyVal
  | int : Int → PyVal
  | pyNone : PyVal
deriving Repr, DecidableEq

def PyVal.isBytes : PyVal → Bool
  | .bytes _ => true
  | _ => false

def PyVal.isStr : PyVal → Bool
  | .str _ => true
  | _ => false

/-- The `TxData1` named tuple: transaction metadata, every field optional. -/
structure TxData1 where
  height : Option Int := none
  position : Option Int := none
  fee : Option Int := none
  date_added : Option Int := none
  date_updated : Option Int := none
deriving Repr, DecidableEq

/-- The `TransactionRow1` named tuple.  `tx_hash` is a dynamically typed Python
value because `create_transactions1` checks `type(tx_hash) is bytes` at
runtime. -/
structure TransactionRow1 where
  tx_hash : PyVal
  tx_data : TxData1
  tx_bytes : Option (List Nat)
  flags : Nat
  description : Option String
  version : Option Int
  locktime : Option Int
deriving Repr, DecidableEq

/-- Column tuple appended to `datas` by `create_transactions1`
(lines 223-225), in the column order of the `Transactions` insert. -/
structure TransactionsDbRow where
  tx_hash : List Nat
  tx_data : List Nat
  flags : Nat
  block_height : Option Int
  block_position : Option Int
  fee_value : Option Int
  description : Option String
  version : Option Int
  locktime : Option Int
  date_created : Int
  date_updated : Int
deriving Repr, DecidableEq

/-- Python `x & ~m` on nonnegative ints: clear from `x` every bit set in
`m`.  This is `Nat.ldiff x m`; we use the equivalent xor form because the
kernel evaluates `^^^` and `&&&` on literals (see `clearBits_eq_ldiff`). -/
def clearBits (x m : Nat) : Nat := x ^^^ (x &&& m)

/-- The flag-reconciliation step of `create_transactions1` (lines 215-221):
`flags &= ~TxFlags1.METADATA_FIELD_MASK`, then or in `HasHeight`,
`HasFee`, `HasPosition` when the corresponding metadata field is not
`None`, in that source order. -/
def reconcileTxFlags (flags : Nat) (metadata : TxData1) : Nat :=
  let f0 := clearBits flags TxFlags1.METADATA_FIELD_MASK
  let f1 := if metadata.height.isSome then f0 ||| TxFlags1.HasHeight else f0
  let f2 := if metadata.fee.isSome then f1 ||| TxFlags1.HasFee else f1
  if metadata.position.isSome then f2 ||| TxFlags1.HasPosition else f2

/-- One iteration of the row-building loop of `create_transactions1`
(lines 212-225): the `type(tx_hash) is bytes and bytedata is not None`
assertion, the `HasByteData` assertion, flag reconciliation, the
date assertions, then the column tuple. -/
def buildTransactionRow (e : TransactionRow1) : Except String TransactionsDbRow :=
  match e.tx_hash, e.tx_bytes with
  | PyVal.bytes hash, some bytedata =>
    if e.flags &&& TxFlags1.HasByteData ≠ 0 then
      Except.error "this flag is not applicable"
    else
      match e.tx_data.date_added, e.tx_data.date_updated with
      | some da, some du =>
        -- column order: tx_hash, tx_data, flags, block_height, block_position,
        -- fee_value, description, version, locktime, date_created, date_updated
        Except.ok ⟨hash, bytedata, reconcileTxFlags e.flags e.tx_data,
          e.tx_data.height, e.tx_data.position, e.tx_data.fee,
          e.description, e.version, e.locktime, da, du⟩
      | _, _ => Except.error "metadata date_added and date_updated must be set"
  | _, _ => Except.error "tx_hash must be bytes and bytedata must not be None"

/-- The `create_transactions1` (lines 204-230) up to the point where the built
rows are handed to the writer: the row-building loop over `entries`, with
the first failed assertion aborting the call before anything is posted. -/
def create_transactions1 : List TransactionRow1 → Except String (List TransactionsDbRow)
  | [] => Except.ok []
  | e :: rest =>
    match buildTransactionRow e with
    | Except.error msg => Except.error msg
    | Except.ok row =>
      match create_transactions1 rest with
      | Except.error msg => Except.error msg
      | Except.ok rows => Except.ok (row :: rows)

/-- An entry that trips one of the assertions of `create_transactions1`. -/
def badTransactionEntry (e : TransactionRow1) : Prop :=
  e.tx_hash.isBytes = false ∨ e.tx_bytes = none ∨
    e.flags &&& TxFlags1.HasByteData ≠ 0 ∨
    e.tx_data.date_added = none ∨ e.tx_data.date_updated = none

instance (e : TransactionRow1) : Decidable (badTransactionEntry e) := by
  unfold badTransactionEntry; infer_instance

/-- Concrete transaction entry used to witness theorems about
`create_transactions1`. -/
def sampleTxEntry : TransactionRow1 where
  tx_hash := PyVal.bytes [0]
  tx_data := { height := some 1, date_added := some 7, date_updated := some 8 }
  tx_bytes := some []
  flags := TxFlags1.STATE_CLEARED
  description := none
  version := none
  locktime := none

/-- The column tuple `buildTransactionRow` produces for `sampleTxEntry`. -/
def sampleTxRow : TransactionsDbRow where
  tx_hash := [0]
  tx_data := []
  flags := 1048608
  block_height := some 1
  block_position := none
  fee_value := none
  description := none
  version := none
  locktime := none
  date_created := 7
  date_updated := 8

/-- The `AccountRow1` named tuple.  Enum-typed fields (`ScriptType`,
`DerivationType`, `KeyInstanceFlag`, `PaymentFlag`) live in
`..constants`, outside this module, and are opaque ints here. -/
structure AccountRow1 where
  account_id : Int
  default_masterkey_id : Option Int
  default_script_type : Nat
  account_name : String
deriving Repr, DecidableEq

/-- The `KeyInstanceRow1` named tuple. -/
structure KeyInstanceRow1 where
  keyinstance_id : Int
  account_id : Int
  masterkey_id : Option Int
  derivation_type : Nat
  derivation_data : List Nat
  script_type : Nat
  flags : Nat
  description : Option String
deriving Repr, DecidableEq

/-- The `MasterKeyRow1` named tuple. -/
structure MasterKeyRow1 where
  masterkey_id : Int
  parent_masterkey_id : Option Int
  derivation_type : Nat
  derivation_data : List Nat
deriving Repr, DecidableEq

/-- The `PaymentRequestRow1` named tuple; `date_created` is its last field. -/
structure PaymentRequestRow1 where
  paymentrequest_id : Int
  keyinstance_id : Int
  state : Nat
  value : Option Int
  expiration : Option Int
  description : Option String
  date_created : Int
deriving Repr, DecidableEq

/-- The `TransactionOutputRow1` named tuple. -/
structure TransactionOutputRow1 where
  tx_hash : List Nat
  tx_index : Int
  value : Int
  keyinstance_id : Option Int
  flags : Nat
deriving Repr, DecidableEq

/-- Column tuple of the `Accounts` insert. -/
structure AccountsDbRow where
  account_id : Int
  default_masterkey_id : Option Int
  default_script_type : Nat
  account_name : String
  date_created : Int
  date_updated : Int
deriving Repr, DecidableEq

/-- Column tuple of the `KeyInstances` insert. -/
structure KeyInstancesDbRow where
  keyinstance_id : Int
  account_id : Int
  masterkey_id : Option Int
  derivation_type : Nat
  derivation_data : List Nat
  script_type : Nat
  flags : Nat
  description : Option String
  date_created : Int
  date_updated : Int
deriving Repr, DecidableEq

/-- Column tuple of the `MasterKeys` insert. -/
structure MasterKeysDbRow where
  masterkey_id : Int
  parent_masterkey_id : Option Int
  derivation_type : Nat
  derivation_data : List Nat
  date_created : Int
  date_updated : Int
deriving Repr, DecidableEq

/-- Column tuple of the `PaymentRequests` insert. -/
structure PaymentRequestsDbRow where
  paymentrequest_id : Int
  keyinstance_id : Int
  state : Nat
  value : Option Int
  expiration : Option Int
  description : Option String
  date_created : Int
  date_updated : Int
deriving Repr, DecidableEq

/-- Column tuple of the `TransactionOutputs` insert. -/
structure TransactionOutputsDbRow where
  tx_hash : List Nat
  tx_index : Int
  value : Int
  keyinstance_id : Option Int
  flags : Nat
  date_created : Int
  date_updated : Int
deriving Repr, DecidableEq

/-- The `create_accounts1` (lines 142-151) up to the writer hand-off.
`timestamp` is the single `get_timestamp()` value the function samples
before building `datas`; each entry is extended with
`(timestamp, timestamp)`. -/
def create_accounts1 (timestamp : Int) (entries : List AccountRow1) :
    List AccountsDbRow :=
  entries.map fun t =>
    ⟨t.account_id, t.default_masterkey_id, t.default_script_type,
      t.account_name, timestamp, timestamp⟩

/-- The `create_keys1` (lines 154-164): single `int(time.time())` sample,
each entry extended with `(timestamp, timestamp)`. -/
def create_keys1 (timestamp : Int) (entries : List KeyInstanceRow1) :
    List KeyInstancesDbRow :=
  entries.map fun t =>
    ⟨t.keyinstance_id, t.account_id, t.masterkey_id, t.derivation_type,
      t.derivation_data, t.script_type, t.flags, t.description,
      timestamp, timestamp⟩

/-- The `create_master_keys1` (lines 167-176): single `get_timestamp()`
sample, each entry extended with `(timestamp, timestamp)`. -/
def create_master_keys1 (timestamp : Int) (entries : List MasterKeyRow1) :
    List MasterKeysDbRow :=
  entries.map fun t =>
    ⟨t.masterkey_id, t.parent_masterkey_id, t.derivation_type,
      t.derivation_data, timestamp, timestamp⟩

/-- The `create_payment_requests1` (lines 179-189): no timestamp is sampled;
`datas = [ (*t, t[-1]) for t in entries ]` duplicates each entry's own
`date_created` (its last field) into the `date_updated` column. -/
def create_payment_requests1 (entries : List PaymentRequestRow1) :
    List PaymentRequestsDbRow :=
  entries.map fun t =>
    ⟨t.paymentrequest_id, t.keyinstance_id, t.state, t.value, t.expiration,
      t.description, t.date_created, t.date_created⟩

/-- The `create_transaction_outputs1` (lines 192-201): single
`int(time.time())` sample, each entry extended with
`(timestamp, timestamp)`. -/
def create_transaction_outputs1 (timestamp : Int)
    (entries : List TransactionOutputRow1) : List TransactionOutputsDbRow :=
  entries.map fun t =>
    ⟨t.tx_hash, t.tx_index, t.value, t.keyinstance_id, t.flags,
      timestamp, timestamp⟩

/-- The `other` operand of `TxData1.__eq__`: another `TxData1`, or an
arbitrary non-`TxData1` Python value. -/
inductive TxDataOperand where
  | txData : TxData1 → TxDataOperand
  | other : PyVal → TxDataOperand
deriving Repr, DecidableEq

/-- Result of a Python `__eq__` method: a bool, or the `NotImplemented`
sentinel. -/
inductive DunderEqResult where
  | bool : Bool → DunderEqResult
  | notImplemented : DunderEqResult
deriving Repr, DecidableEq

/-- The `TxData1.__eq__` (lines 115-119): `NotImplemented` unless the operand
is a `TxData1`, otherwise compare only `height`, `position` and `fee`. -/
def TxData1.eq (self : TxData1) (other : TxDataOperand) : DunderEqResult :=
  match other with
  | .txData o =>
    .bool (decide (self.height = o.height) && decide (self.position = o.position)
      && decide (self.fee = o.fee))
  | .other _ => .notImplemented

/-! ### JSON values and the text codec

Modelled from the spec: the Python `json` module used by
`create_wallet_datas1`, `read_wallet_data1` and `update_wallet_datas1` is
standard-library code outside this repository.  The spec describes it as
"an explicit tagged value type (null/bool/number/string/sequence/mapping)
serialized through a canonical text codec" with round-trip identity.
Numbers are modelled as integers; strings are lists of characters with
quote and backslash escaped. -/

/-- JSON-representable Python value: null, bool, number, string,
sequence, or mapping with string keys. -/
inductive Json where
  | null : Json
  | bool : Bool → Json
  | num : Int → Json
  | str : List Char → Json
  | arr : List Json → Json
  | obj : List (List Char × Json) → Json
deriving Repr

/-- The double-quote character. -/
def qChar : Char := Char.ofNat 34

/-- The backslash character. -/
def bsChar : Char := Char.ofNat 92

/-- The opening curly-bracket character. -/
def lbChar : Char := Char.ofNat 123

/-- The closing curly-bracket character. -/
def rbChar : Char := Char.ofNat 125

/-- Escape one character of a JSON string literal. -/
def escChar (c : Char) : List Char :=
  if c = qChar ∨ c = bsChar then [bsChar, c] else [c]

/-- Escape a whole JSON string body. -/
def escStr : List Char → List Char
  | [] => []
  | c :: rest => escChar c ++ escStr rest

/-- The decimal digit character for `d`. -/
def digitChar (d : Nat) : Char := Char.ofNat (48 + d)

/-- Decimal digits of `n`, least significant first; fuelled so that the
kernel can evaluate it (`fuel ≥ n` suffices, see `natDigitsLE`). -/
def natDigitsLEAux : Nat → Nat → List Nat
  | 0, _ => []
  | fuel + 1, n => if n = 0 then [] else n % 10 :: natDigitsLEAux fuel (n / 10)

/-- Decimal digits of `n`, least significant first (`[]` for 0). -/
def natDigitsLE (n : Nat) : List Nat := natDigitsLEAux n n

/-- Decimal text of a natural number. -/
def natToChars (n : Nat) : List Char :=
  if n = 0 then [digitChar 0] else (natDigitsLE n).reverse.map digitChar

/-- Decimal text of an integer. -/
def intToChars : Int → List Char
  | Int.ofNat n => natToChars n
  | Int.negSucc m => '-' :: natToChars (m + 1)

mutual

/-- Serialize a JSON value to text (the model of `json.dumps`). -/
def dumps : Json → List Char
  | .null => 'n' :: ['u', 'l', 'l']
  | .bool true => 't' :: ['r', 'u', 'e']
  | .bool false => 'f' :: ['a', 'l', 's', 'e']
  | .num n => intToChars n
  | .str s => qChar :: (escStr s ++ [qChar])
  | .arr xs => '[' :: (dumpsArr xs ++ [']'])
  | .obj kvs => lbChar :: (dumpsObj kvs ++ [rbChar])

/-- Comma-separated serialization of array elements. -/
def dumpsArr : List Json → List Char
  | [] => []
  | [x] => dumps x
  | x :: y :: rest => dumps x ++ ',' :: dumpsArr (y :: rest)

/-- Comma-separated serialization of object members. -/
def dumpsObj : List (List Char × Json) → List Char
  | [] => []
  | [(k, v)] => dumpsMember k v
  | (k, v) :: kv2 :: rest => dumpsMember k v ++ ',' :: dumpsObj (kv2 :: rest)

/-- Serialization of one object member: quoted key, colon, value. -/
def dumpsMember (k : List Char) (v : Json) : List Char :=
  qChar :: (escStr k ++ [qChar] ++ (':' :: dumps v))

end

/-- Match a literal prefix, returning the remaining input. -/
def dropLit : List Char → List Char → Option (List Char)
  | [], cs => some cs
  | l :: ls, c :: cs => if c = l then dropLit ls cs else none
  | _ :: _, [] => none

/-- Parse the body of a JSON string literal after its opening quote, up
to and including the closing quote, undoing `escChar`. -/
def parseStrBody : List Char → Option (List Char × List Char)
  | [] => none
  | c :: r =>
    if c = qChar then some ([], r)
    else if c = bsChar then
      match r with
      | [] => none
      | d :: r2 => (parseStrBody r2).map fun p => (d :: p.1, p.2)
    else (parseStrBody r).map fun p => (c :: p.1, p.2)

/-- Numeric value of a list of decimal digit characters, most significant
first. -/
def digitsVal (ds : List Char) : Nat :=
  ds.foldl (fun a c => a * 10 + (c.toNat - 48)) 0

/-- Parse a JSON number: optional minus sign, then decimal digits. -/
def parseNum (cs : List Char) : Option (Json × List Char) :=
  match cs with
  | [] => none
  | c :: r =>
    if c = '-' then
      let ds := r.takeWhile Char.isDigit
      if ds = [] then none
      else some (Json.num (-(digitsVal ds : Int)), r.drop ds.length)
    else
      let ds := (c :: r).takeWhile Char.isDigit
      if ds = [] then none
      else some (Json.num ((digitsVal ds : Int)), (c :: r).drop ds.length)

mutual

/-- Parse one JSON value (the model of `json.loads`, fuelled). -/
def parseVal : Nat → List Char → Option (Json × List Char)
  | 0, _ => none
  | _ + 1, [] => none
  | fuel + 1, c :: r =>
    if c = 'n' then (dropLit ['u', 'l', 'l'] r).map fun r2 => (Json.null, r2)
    else if c = 't' then (dropLit ['r', 'u', 'e'] r).map fun r2 => (Json.bool true, r2)
    else if c = 'f' then (dropLit ['a', 'l', 's', 'e'] r).map fun r2 => (Json.bool false, r2)
    else if c = qChar then (parseStrBody r).map fun p => (Json.str p.1, p.2)
    else if c = '[' then
      match r with
      | [] => none
      | d :: r2 => if d = ']' then some (Json.arr [], r2) else parseArrItems fuel r []
    else if c = lbChar then
      match r with
      | [] => none
      | d :: r2 => if d = rbChar then some (Json.obj [], r2) else parseObjItems fuel r []
    else parseNum (c :: r)

/-- Parse the elements of a non-empty JSON array after the opening
bracket. -/
def parseArrItems : Nat → List Char → List Json → Option (Json × List Char)
  | 0, _, _ => none
  | fuel + 1, cs, acc =>
    match parseVal fuel cs with
    | none => none
    | some (v, r) =>
      match r with
      | [] => none
      | d :: r2 =>
        if d = ',' then parseArrItems fuel r2 (acc ++ [v])
        else if d = ']' then some (Json.arr (acc ++ [v]), r2)
        else none

/-- Parse the members of a non-empty JSON object after the opening
bracket. -/
def parseObjItems : Nat → List Char → List (List Char × Json) →
    Option (Json × List Char)
  | 0, _, _ => none
  | fuel + 1, cs, acc =>
    match cs with
    | [] => none
    | c :: r =>
      if c = qChar then
        match parseStrBody r with
        | none => none
        | some (k, r2) =>
          match r2 with
          | [] => none
          | d :: r3 =>
            if d = ':' then
              match parseVal fuel r3 with
              | none => none
              | some (v, r4) =>
                match r4 with
                | [] => none
                | d2 :: r5 =>
                  if d2 = ',' then parseObjItems fuel r5 (acc ++ [(k, v)])
                  else if d2 = rbChar then some (Json.obj (acc ++ [(k, v)]), r5)
                  else none
            else none
      else none

end

mutual

/-- Fuel bound for the parser, mutually with list and member versions. -/
def jsize : Json → Nat
  | .null => 1
  | .bool _ => 1
  | .num _ => 1
  | .str _ => 1
  | .arr xs => 1 + jsizeArr xs
  | .obj kvs => 1 + jsizeObj kvs

/-- Fuel bound for a chain of array elements. -/
def jsizeArr : List Json → Nat
  | [] => 1
  | x :: xs => 1 + jsize x + jsizeArr xs

/-- Fuel bound for a chain of object members. -/
def jsizeObj : List (List Char × Json) → Nat
  | [] => 1
  | (_, v) :: kvs => 1 + jsize v + jsizeObj kvs

end

/-- Deserialize JSON text (the model of `json.loads`): parse one value
that must consume the entire input.  The fuel `2 * cs.length + 1`
dominates `jsize` of any value serialized into `cs`
(see `jsize_le_dumps`). -/
def loads (cs : List Char) : Option Json :=
  match parseVal (2 * cs.length + 1) cs with
  | some (v, []) => some v
  | _ => none

/-- A parser continuation that cannot extend a number: empty, or starting
with a non-digit. -/
def goodRest : List Char → Bool
  | [] => true
  | c :: _ => !c.isDigit

/-! ### The WalletData table and its operations -/

/-- The `WalletDataRow1` named tuple.  `key` is dynamically typed because
`create_wallet_datas1` checks `type(entry.key) is str` at runtime; the
JSON-serializable `value` is a `Json`. -/
structure WalletDataRow1 where
  key : PyVal
  value : Json

/-- One row of the `WalletData` table: the serialized JSON text plus the
two timestamp columns. -/
structure WalletDataDbRow where
  key : String
  value : List Char
  date_created : Int
  date_updated : Int

/-- The `create_wallet_datas1` (lines 233-247) up to the writer hand-off:
single `get_timestamp()` sample, then per entry the
`type(entry.key) is str` assertion, `json.dumps` of the value, and the
row `[key, data, timestamp, timestamp]`. -/
def create_wallet_datas1 (timestamp : Int) :
    List WalletDataRow1 → Except String (List WalletDataDbRow)
  | [] => Except.ok []
  | e :: rest =>
    match e.key with
    | PyVal.str k =>
      match create_wallet_datas1 timestamp rest with
      | Except.error msg => Except.error msg
      | Except.ok rows => Except.ok (⟨k, dumps e.value, timestamp, timestamp⟩ :: rows)
    | _ => Except.error "bad key"

/-- One `INSERT INTO WalletData` execution against the table: the store
rejects a duplicate key (primary-key uniqueness). -/
def insertWalletRow (db : List WalletDataDbRow) (r : WalletDataDbRow) :
    Except String (List WalletDataDbRow) :=
  if db.any fun q => q.key == r.key then Except.error "UNIQUE constraint failed"
  else Except.ok (db ++ [r])

/-- The batched `executemany` insert of `create_wallet_datas1` as run by
the writer: all rows in order; the batch fails as a unit, surfacing no
partial state. -/
def runInsertWalletRows : List WalletDataDbRow → List WalletDataDbRow →
    Except String (List WalletDataDbRow)
  | db, [] => Except.ok db
  | db, r :: rs =>
    match insertWalletRow db r with
    | Except.error msg => Except.error msg
    | Except.ok db2 => runInsertWalletRows db2 rs

/-- The `read_wallet_data1` (lines 250-255): point `SELECT` on a caller
connection, `fetchone`, then `json.loads(row[0]) if row is not None else
None`.  The result pairs the (unchanged) table with the outcome: Python
`None` for a missing key is the JSON `null` value, and a `json.loads`
exception is `Except.error`. -/
def read_wallet_data1 (db : List WalletDataDbRow) (key : String) :
    List WalletDataDbRow × Except String Json :=
  match db.find? fun r => r.key == key with
  | some row =>
    (db, match loads row.value with
      | some v => Except.ok v
      | none => Except.error "invalid json")
  | none => (db, Except.ok Json.null)

/-- Parameter tuple of the `UPDATE WalletData` statement, in source
order: `(json.dumps(entry.value), timestamp, entry.key)`. -/
structure WalletDataUpdateRow where
  value : List Char
  date_updated : Int
  key : PyVal

/-- The `update_wallet_datas1` (lines 258-268) up to the writer hand-off:
single `get_timestamp()` sample, then one parameter tuple per entry.
The source performs no validation here (no `assert` on the key). -/
def update_wallet_datas1 (timestamp : Int) (entries : List WalletDataRow1) :
    List WalletDataUpdateRow :=
  entries.map fun e => ⟨dumps e.value, timestamp, e.key⟩

/-- One `UPDATE WalletData SET value=?, date_updated=? WHERE key=?`
execution: every row whose key equals the bound key is overwritten;
zero matching rows leave the table unchanged. -/
def applyWalletUpdate (db : List WalletDataDbRow) (u : WalletDataUpdateRow) :
    List WalletDataDbRow :=
  db.map fun r =>
    if PyVal.str r.key = u.key then
      ⟨r.key, u.value, r.date_created, u.date_updated⟩
    else r

/-- The batched `executemany` update as run by the writer.  An `UPDATE`
affecting zero rows is not an error, so this execution always
succeeds. -/
def runWalletUpdates : List WalletDataDbRow → List WalletDataUpdateRow →
    List WalletDataDbRow
  | db, [] => db
  | db, u :: us => runWalletUpdates (applyWalletUpdate db u) us

/-- The `update_wallet_datas1` end to end: build the parameter tuples and run
them on the writer; the completion handle resolves successfully. -/
def update_wallet_datas1_run (db : List WalletDataDbRow) (timestamp : Int)
    (entries : List WalletDataRow1) : Except String (List WalletDataDbRow) :=
  Except.ok (runWalletUpdates db (update_wallet_datas1 timestamp entries))

/-! ### The single-writer dispatcher

Modelled from the spec: `DatabaseContext.post_to_thread` lives in
`sqlite_support`, outside the shown module.  The spec describes one
dedicated writer that executes submitted operations strictly in
acceptance order, completing each (success or failure) before the next
starts, with a failure completing that handle without stopping the
queue. -/

/-- Run one submitted operation on the writer: the store state it
produced on success, or the unchanged state and its error. -/
def applyWriterOp {σ : Type} (db : σ) (op : σ → Except String σ) :
    σ × Except String Unit :=
  match op db with
  | Except.ok db2 => (db2, Except.ok ())
  | Except.error e => (db, Except.error e)

/-- The writer loop: execute queued operations in FIFO order, recording
one completion result per operation. -/
def runWriter {σ : Type} : σ → List (σ → Except String σ) →
    σ × List (Except String Unit)
  | db, [] => (db, [])
  | db, op :: ops =>
    match op db with
    | Except.ok db2 =>
      let r := runWriter db2 ops
      (r.1, Except.ok () :: r.2)
    | Except.error e =>
      let r := runWriter db ops
      (r.1, Except.error e :: r.2)

/-! ### Theorems -/

/-- The `clearBits` agrees with `Nat.ldiff`, i.e. with Python `x & ~m` on
nonnegative ints. -/
theorem clearBits_eq_ldiff (x m : Nat) : clearBits x m = Nat.ldiff x m := by
  apply Nat.eq_of_testBit_eq
  intro i
  rw [clearBits, Nat.testBit_xor, Nat.testBit_land, Nat.testBit_ldiff]
  cases x.testBit i <;> cases m.testBit i <;> decide

/-- The `testBit` of `clearBits`. -/
theorem testBit_clearBits (x m i : Nat) :
    (clearBits x m).testBit i = (x.testBit i && !(m.testBit i)) := by
  rw [clearBits_eq_ldiff, Nat.testBit_ldiff]

/-- The `testBit` of the numeral 16 (`HasFee`). -/
theorem testBit_16 (j : Nat) : Nat.testBit 16 j = decide (j = 4) := by
  rcases Nat.lt_or_ge j 5 with hj | hj
  · interval_cases j <;> decide
  · have h1 : Nat.testBit 16 j = false :=
      Nat.testBit_lt_two_pow
        (lt_of_lt_of_le (by norm_num) (Nat.pow_le_pow_right (by norm_num) hj))
    have h2 : j ≠ 4 := by omega
    simp [h1, h2]

/-- The `testBit` of the numeral 32 (`HasHeight`). -/
theorem testBit_32 (j : Nat) : Nat.testBit 32 j = decide (j = 5) := by
  rcases Nat.lt_or_ge j 6 with hj | hj
  · interval_cases j <;> decide
  · have h1 : Nat.testBit 32 j = false :=
      Nat.testBit_lt_two_pow
        (lt_of_lt_of_le (by norm_num) (Nat.pow_le_pow_right (by norm_num) hj))
    have h2 : j ≠ 5 := by omega
    simp [h1, h2]

/-- The `testBit` of the numeral 64 (`HasPosition`). -/
theorem testBit_64 (j : Nat) : Nat.testBit 64 j = decide (j = 6) := by
  rcases Nat.lt_or_ge j 7 with hj | hj
  · interval_cases j <;> decide
  · have h1 : Nat.testBit 64 j = false :=
      Nat.testBit_lt_two_pow
        (lt_of_lt_of_le (by norm_num) (Nat.pow_le_pow_right (by norm_num) hj))
    have h2 : j ≠ 6 := by omega
    simp [h1, h2]

/-- The `testBit` of the numeral 112 (`METADATA_FIELD_MASK`). -/
theorem testBit_112 (j : Nat) :
    Nat.testBit 112 j = (decide (j = 4) || decide (j = 5) || decide (j = 6)) := by
  rcases Nat.lt_or_ge j 7 with hj | hj
  · interval_cases j <;> decide
  · have h1 : Nat.testBit 112 j = false :=
      Nat.testBit_lt_two_pow
        (lt_of_lt_of_le (by norm_num) (Nat.pow_le_pow_right (by norm_num) hj))
    have h2 : j ≠ 4 := by omega
    have h3 : j ≠ 5 := by omega
    have h4 : j ≠ 6 := by omega
    simp [h1, h2, h3, h4]

/-- Bit-level characterisation of the reconciliation step: bit 4 becomes
fee presence, bit 5 height presence, bit 6 position presence, and every
other bit of the input is unchanged. -/
theorem reconcileTxFlags_testBit (flags : Nat) (m : TxData1) (i : Nat) :
    (reconcileTxFlags flags m).testBit i =
      if i = 4 then m.fee.isSome
      else if i = 5 then m.height.isSome
      else if i = 6 then m.position.isSome
      else flags.testBit i := by
  unfold reconcileTxFlags TxFlags1.METADATA_FIELD_MASK TxFlags1.HasFee
    TxFlags1.HasHeight TxFlags1.HasPosition
  cases hh : m.height.isSome <;> cases hf : m.fee.isSome <;>
    cases hp : m.position.isSome <;>
    by_cases h4 : i = 4 <;> by_cases h5 : i = 5 <;> by_cases h6 : i = 6 <;>
    first
    | omega
    | simp [hh, hf, hp, h4, h5, h6, Nat.testBit_lor, testBit_clearBits,
        testBit_16, testBit_32, testBit_64, testBit_112]

/-- C1: for every transaction entry accepted by `create_transactions1`
(in particular its flags have `HasByteData` clear), the stored flags word
has `HasFee` (bit 4) set iff `metadata.fee` is present, `HasHeight`
(bit 5) set iff `metadata.height` is present, `HasPosition` (bit 6) set
iff `metadata.position` is present, and every bit outside
`METADATA_FIELD_MASK` equal to the corresponding input bit. -/
theorem create_transactions1_stored_flags (e : TransactionRow1)
    (row : TransactionsDbRow) (h : buildTransactionRow e = Except.ok row) :
    row.flags.testBit 4 = e.tx_data.fee.isSome ∧
    row.flags.testBit 5 = e.tx_data.height.isSome ∧
    row.flags.testBit 6 = e.tx_data.position.isSome ∧
    ∀ i : Nat, i ≠ 4 → i ≠ 5 → i ≠ 6 → row.flags.testBit i = e.flags.testBit i := by
  have hf : row.flags = reconcileTxFlags e.flags e.tx_data := by
    unfold buildTransactionRow at h
    split at h
    · split at h
      · exact absurd h (by simp)
      · split at h
        · cases h; rfl
        · exact absurd h (by simp)
    · exact absurd h (by simp)
  refine ⟨?_, ?_, ?_, ?_⟩ <;> rw [hf]
  · rw [reconcileTxFlags_testBit]; simp
  · rw [reconcileTxFlags_testBit]; simp
  · rw [reconcileTxFlags_testBit]; simp
  · intro i h4 h5 h6
    rw [reconcileTxFlags_testBit]
    simp [h4, h5, h6]

/-- Witness for C1 at a concrete entry. -/
theorem create_transactions1_stored_flags_witness :
    buildTransactionRow sampleTxEntry = Except.ok sampleTxRow ∧
    (sampleTxRow.flags.testBit 4 = sampleTxEntry.tx_data.fee.isSome ∧
     sampleTxRow.flags.testBit 5 = sampleTxEntry.tx_data.height.isSome ∧
     sampleTxRow.flags.testBit 6 = sampleTxEntry.tx_data.position.isSome ∧
     ∀ i : Nat, i ≠ 4 → i ≠ 5 → i ≠ 6 →
       sampleTxRow.flags.testBit i = sampleTxEntry.flags.testBit i) :=
  ⟨rfl, create_transactions1_stored_flags sampleTxEntry sampleTxRow rfl⟩

/-- C2: the flag-reconciliation step of `create_transactions1` is
idempotent: applying it twice with the same metadata gives the same flags
word as applying it once. -/
theorem reconcileTxFlags_idempotent (flags : Nat) (m : TxData1)
    (h : flags &&& TxFlags1.HasByteData = 0) :
    reconcileTxFlags (reconcileTxFlags flags m) m = reconcileTxFlags flags m := by
  apply Nat.eq_of_testBit_eq
  intro i
  rw [reconcileTxFlags_testBit, reconcileTxFlags_testBit]
  by_cases h4 : i = 4 <;> by_cases h5 : i = 5 <;> by_cases h6 : i = 6 <;>
    simp [h4, h5, h6]

/-- Witness for C2 at a concrete flags word and metadata tuple. -/
theorem reconcileTxFlags_idempotent_witness :
    TxFlags1.STATE_SETTLED &&& TxFlags1.HasByteData = 0 ∧
    reconcileTxFlags
        (reconcileTxFlags TxFlags1.STATE_SETTLED { height := some 3 })
        { height := some 3 } =
      reconcileTxFlags TxFlags1.STATE_SETTLED { height := some 3 } :=
  ⟨by decide,
    reconcileTxFlags_idempotent TxFlags1.STATE_SETTLED { height := some 3 } (by decide)⟩

/-- The `buildTransactionRow` fails exactly on the entries that trip one of
the assertions of `create_transactions1`. -/
theorem buildTransactionRow_error_iff (e : TransactionRow1) :
    (buildTransactionRow e).isOk = false ↔ badTransactionEntry e := by
  obtain ⟨th, td, tb, fl, de, ve, lo⟩ := e
  obtain ⟨hh, pp, ff, da, du⟩ := td
  by_cases hfl : fl &&& TxFlags1.HasByteData = 0 <;>
    cases th <;> cases tb <;> cases da <;> cases du <;>
      simp [buildTransactionRow, badTransactionEntry, PyVal.isBytes, hfl,
        Except.isOk, Except.toBool]

/-- C3: `create_transactions1` fails (before anything reaches the writer:
in this embedding an `Except.error` result carries no built rows and
nothing is posted) exactly when some entry has a non-bytes `tx_hash`, an
absent `tx_bytes`, the `HasByteData` flag bit set, or an absent
`date_added` or `date_updated`; with all entries well-formed no failure
occurs. -/
theorem create_transactions1_error_iff (entries : List TransactionRow1) :
    (create_transactions1 entries).isOk = false ↔
      ∃ e ∈ entries, badTransactionEntry e := by
  induction entries with
  | nil => simp [create_transactions1, Except.isOk, Except.toBool]
  | cons e rest ih =>
    cases hrow : buildTransactionRow e with
    | error msg =>
      have hbad : badTransactionEntry e := by
        rw [← buildTransactionRow_error_iff, hrow]; rfl
      simp [create_transactions1, hrow, Except.isOk, Except.toBool, hbad]
    | ok row =>
      have hgood : ¬ badTransactionEntry e := by
        rw [← buildTransactionRow_error_iff, hrow]; simp [Except.isOk, Except.toBool]
      cases hrest : create_transactions1 rest with
      | error msg2 =>
        have : (create_transactions1 rest).isOk = false := by
          rw [hrest]; rfl
        simp [create_transactions1, hrow, hrest, Except.bind, Except.isOk, Except.toBool,
          hgood, ih.mp this]
      | ok rows =>
        have : ¬ (create_transactions1 rest).isOk = false := by
          rw [hrest]; simp [Except.isOk, Except.toBool]
        simp [create_transactions1, hrow, hrest, Except.bind, Except.isOk, Except.toBool,
          hgood, (not_iff_not.mpr ih).mp this]

/-- C10: `TxData1.__eq__` compares only `height`, `position` and `fee`
(so the `date_added` and `date_updated` fields are ignored), and returns
`NotImplemented` for a non-`TxData1` operand. -/
theorem txData1_eq_spec :
    (∀ a b : TxData1, TxData1.eq a (.txData b) = .bool true ↔
        (a.height = b.height ∧ a.position = b.position ∧ a.fee = b.fee)) ∧
    (∀ (a : TxData1) (v : PyVal), TxData1.eq a (.other v) = .notImplemented) := by
  constructor
  · intro a b
    simp [TxData1.eq, and_assoc]
  · intro a v
    rfl

/-! ### Codec lemmas -/

/-- The `dropLit` strips exactly the literal it is given. -/
theorem dropLit_self (l : List Char) (r : List Char) :
    dropLit l (l ++ r) = some r := by
  induction l with
  | nil => rfl
  | cons c cs ih => simp [dropLit, ih]

/-- The `parseStrBody` undoes `escStr`, consuming the closing quote. -/
theorem parseStrBody_escStr (s : List Char) (rest : List Char) :
    parseStrBody (escStr s ++ (qChar :: rest)) = some (s, rest) := by
  have hbq : bsChar ≠ qChar := by decide
  induction s with
  | nil =>
    show parseStrBody (qChar :: rest) = some ([], rest)
    rw [parseStrBody.eq_def]
    simp
  | cons c cs ih =>
    by_cases hc : c = qChar ∨ c = bsChar
    · have h1 : escChar c = [bsChar, c] := by simp [escChar, hc]
      simp only [escStr, h1, List.cons_append, List.append_assoc]
      rw [parseStrBody.eq_def]
      simp [hbq, ih]
    · have h1 : escChar c = [c] := by simp [escChar, hc]
      have h2 : c ≠ qChar := fun h => hc (Or.inl h)
      have h3 : c ≠ bsChar := fun h => hc (Or.inr h)
      simp only [escStr, h1, List.cons_append, List.append_assoc, List.nil_append]
      rw [parseStrBody.eq_def]
      simp [h2, h3, ih]

/-- The `toNat` of a decimal digit character. -/
theorem digitChar_toNat (d : Nat) (h : d < 10) : (digitChar d).toNat = 48 + d := by
  interval_cases d <;> decide

/-- Decimal digit characters satisfy `Char.isDigit`. -/
theorem digitChar_isDigit (d : Nat) (h : d < 10) : (digitChar d).isDigit = true := by
  interval_cases d <;> decide

/-- The fuel of `natDigitsLEAux` is irrelevant once it dominates `n`. -/
theorem natDigitsLEAux_congr (n : Nat) : ∀ f1 f2 : Nat, n ≤ f1 → n ≤ f2 →
    natDigitsLEAux f1 n = natDigitsLEAux f2 n := by
  induction n using Nat.strong_induction_on with
  | _ n ih =>
    intro f1 f2 h1 h2
    match f1, f2 with
    | 0, 0 => rfl
    | 0, f2 + 1 =>
      have : n = 0 := by omega
      simp [natDigitsLEAux, this]
    | f1 + 1, 0 =>
      have : n = 0 := by omega
      simp [natDigitsLEAux, this]
    | f1 + 1, f2 + 1 =>
      by_cases hn : n = 0
      · simp [natDigitsLEAux, hn]
      · have hlt : n / 10 < n := Nat.div_lt_self (Nat.pos_of_ne_zero hn) (by norm_num)
        simp only [natDigitsLEAux, if_neg hn]
        rw [ih (n / 10) hlt f1 f2 (by omega) (by omega)]

/-- Characteristic equation of `natDigitsLE`. -/
theorem natDigitsLE_eq (n : Nat) :
    natDigitsLE n = if n = 0 then [] else n % 10 :: natDigitsLE (n / 10) := by
  by_cases hn : n = 0
  · simp [natDigitsLE, natDigitsLEAux, hn]
  · obtain ⟨m, rfl⟩ : ∃ m, n = m + 1 := ⟨n - 1, by omega⟩
    have hlt : (m + 1) / 10 ≤ m := by omega
    simp only [natDigitsLE, natDigitsLEAux, if_neg hn]
    rw [natDigitsLEAux_congr ((m + 1) / 10) m ((m + 1) / 10) hlt le_rfl]

/-- The `natDigitsLE` computes `Nat.digits 10`. -/
theorem natDigitsLE_eq_digits (n : Nat) : natDigitsLE n = Nat.digits 10 n := by
  induction n using Nat.strong_induction_on with
  | _ n ih =>
    by_cases hn : n = 0
    · simp [natDigitsLE_eq, hn]
    · have hlt : n / 10 < n := Nat.div_lt_self (Nat.pos_of_ne_zero hn) (by norm_num)
      rw [natDigitsLE_eq, if_neg hn, ih (n / 10) hlt,
        Nat.digits_def' (by norm_num) (Nat.pos_of_ne_zero hn)]

/-- Every entry of `natDigitsLE` is a decimal digit. -/
theorem natDigitsLE_lt (n : Nat) : ∀ d ∈ natDigitsLE n, d < 10 := by
  rw [natDigitsLE_eq_digits]
  intro d hd
  exact Nat.digits_lt_base (by norm_num) hd

/-- The `natToChars` is never empty. -/
theorem natToChars_ne_nil (n : Nat) : natToChars n ≠ [] := by
  by_cases hn : n = 0
  · simp [natToChars, hn]
  · have h1 : natDigitsLE n ≠ [] := by
      rw [natDigitsLE_eq_digits]
      exact Nat.digits_ne_nil_iff_ne_zero.mpr hn
    simp [natToChars, hn, h1]

/-- Every character of `natToChars` is a decimal digit. -/
theorem natToChars_isDigit (n : Nat) : ∀ c ∈ natToChars n, c.isDigit = true := by
  intro c hc
  by_cases hn : n = 0
  · simp [natToChars, hn] at hc
    rw [hc]; decide
  · simp [natToChars, hn, List.mem_map, List.mem_reverse] at hc
    obtain ⟨d, hd, rfl⟩ := hc
    exact digitChar_isDigit d (natDigitsLE_lt n d hd)

/-- The `digitsVal` of a reversed digit list via `Nat.ofDigits`. -/
theorem digitsVal_reverse (ds : List Nat) (h : ∀ d ∈ ds, d < 10) (a : Nat) :
    List.foldl (fun x c => x * 10 + (c.toNat - 48)) a ((ds.reverse).map digitChar) =
      a * 10 ^ ds.length + Nat.ofDigits 10 ds := by
  induction ds generalizing a with
  | nil => simp
  | cons d tail ih =>
    have hd : d < 10 := h d (by simp)
    have htail : ∀ x ∈ tail, x < 10 := fun x hx => h x (by simp [hx])
    rw [List.reverse_cons, List.map_append, List.foldl_append, ih htail a]
    simp only [List.map_cons, List.map_nil, List.foldl_cons, List.foldl_nil,
      digitChar_toNat d hd]
    rw [Nat.ofDigits_cons, List.length_cons, pow_succ, Nat.add_sub_cancel_left]
    ring

/-- The `digitsVal` inverts `natToChars`. -/
theorem digitsVal_natToChars (n : Nat) : digitsVal (natToChars n) = n := by
  by_cases hn : n = 0
  · simp [natToChars, hn, digitsVal, digitChar]
  · rw [natToChars, if_neg hn, digitsVal,
      digitsVal_reverse (natDigitsLE n) (natDigitsLE_lt n) 0,
      natDigitsLE_eq_digits]
    simp [Nat.ofDigits_digits]

/-- The `takeWhile isDigit` of digits followed by a good rest is the
digits. -/
theorem takeWhile_digits (l r : List Char) (hl : ∀ c ∈ l, c.isDigit = true)
    (hr : goodRest r = true) : (l ++ r).takeWhile Char.isDigit = l := by
  induction l with
  | nil =>
    cases r with
    | nil => rfl
    | cons c rest =>
      simp only [goodRest, Bool.not_eq_true'] at hr
      simp [List.takeWhile, hr]
  | cons c cs ih =>
    have hc : c.isDigit = true := hl c (by simp)
    simp [List.takeWhile, hc, ih fun x hx => hl x (by simp [hx])]

/-- A decimal digit character is none of the parser dispatch
characters. -/
theorem digit_dispatch (c : Char) (h : c.isDigit = true) :
    c ≠ 'n' ∧ c ≠ 't' ∧ c ≠ 'f' ∧ c ≠ qChar ∧ c ≠ '[' ∧ c ≠ lbChar ∧
      c ≠ '-' ∧ c ≠ ']' ∧ c ≠ rbChar ∧ c ≠ ',' ∧ c ≠ ':' := by
  refine ⟨?_, ?_, ?_, ?_, ?_, ?_, ?_, ?_, ?_, ?_, ?_⟩ <;>
    (intro he; rw [he] at h; exact absurd h (by decide))

/-- The `parseNum` inverts `intToChars`, leaving any good rest in place. -/
theorem parseNum_intToChars (n : Int) (rest : List Char)
    (hr : goodRest rest = true) :
    parseNum (intToChars n ++ rest) = some (Json.num n, rest) := by
  cases n with
  | ofNat m =>
    obtain ⟨c, t, hct⟩ : ∃ c t, natToChars m = c :: t := by
      cases h : natToChars m with
      | nil => exact absurd h (natToChars_ne_nil m)
      | cons c t => exact ⟨c, t, rfl⟩
    have hdig : ∀ x ∈ natToChars m, x.isDigit = true := natToChars_isDigit m
    have hc : c.isDigit = true := hdig c (by rw [hct]; simp)
    have htk : ((c :: t) ++ rest).takeWhile Char.isDigit = c :: t := by
      rw [← hct]
      exact takeWhile_digits _ _ hdig hr
    show parseNum (natToChars m ++ rest) = _
    rw [hct, List.cons_append, parseNum.eq_def]
    simp only [(digit_dispatch c hc).2.2.2.2.2.2.1, if_neg, ite_false,
      ← List.cons_append, htk]
    have hne : (c :: t) ≠ [] := by simp
    simp only [hne, ite_false, if_neg]
    rw [← hct, digitsVal_natToChars, List.drop_left]
    simp
  | negSucc m =>
    have hdig : ∀ x ∈ natToChars (m + 1), x.isDigit = true :=
      natToChars_isDigit (m + 1)
    have htk : (natToChars (m + 1) ++ rest).takeWhile Char.isDigit =
        natToChars (m + 1) := takeWhile_digits _ _ hdig hr
    show parseNum (('-' :: natToChars (m + 1)) ++ rest) = _
    rw [List.cons_append, parseNum.eq_def]
    simp only [ite_true, if_pos rfl, htk, natToChars_ne_nil (m + 1), ite_false,
      if_neg, digitsVal_natToChars, List.drop_left]
    have h2 : -((m + 1 : Nat) : Int) = Int.negSucc m := by
      rw [Int.negSucc_eq]
      push_cast
      ring
    rw [h2]

/-- The `dumps` output is non-empty and never starts with a closing
bracket, closing brace, comma or colon. -/
theorem dumps_cons (v : Json) : ∃ c t, dumps v = c :: t ∧ c ≠ ']' ∧
    c ≠ rbChar ∧ c ≠ ',' ∧ c ≠ ':' := by
  cases v with
  | null =>
    refine ⟨'n', ['u', 'l', 'l'], ?_, by decide, by decide, by decide, by decide⟩
    simp [dumps]
  | bool b =>
    cases b with
    | true =>
      refine ⟨'t', ['r', 'u', 'e'], ?_, by decide, by decide, by decide, by decide⟩
      simp [dumps]
    | false =>
      refine ⟨'f', ['a', 'l', 's', 'e'], ?_, by decide, by decide, by decide, by decide⟩
      simp [dumps]
  | num n =>
    cases n with
    | ofNat m =>
      obtain ⟨c, t, hct⟩ : ∃ c t, natToChars m = c :: t := by
        cases h : natToChars m with
        | nil => exact absurd h (natToChars_ne_nil m)
        | cons c t => exact ⟨c, t, rfl⟩
      have hc : c.isDigit = true := natToChars_isDigit m c (by rw [hct]; simp)
      have hd := digit_dispatch c hc
      refine ⟨c, t, ?_, hd.2.2.2.2.2.2.2.1, hd.2.2.2.2.2.2.2.2.1,
        hd.2.2.2.2.2.2.2.2.2.1, hd.2.2.2.2.2.2.2.2.2.2⟩
      rw [show dumps (Json.num (Int.ofNat m)) = natToChars m by simp [dumps, intToChars]]
      exact hct
    | negSucc m =>
      refine ⟨'-', natToChars (m + 1), ?_, by decide, by decide, by decide, by decide⟩
      simp [dumps, intToChars]
  | str s =>
    refine ⟨qChar, escStr s ++ [qChar], ?_, by decide, by decide, by decide, by decide⟩
    simp [dumps]
  | arr xs =>
    refine ⟨'[', dumpsArr xs ++ [']'], ?_, by decide, by decide, by decide, by decide⟩
    simp [dumps]
  | obj kvs =>
    refine ⟨lbChar, dumpsObj kvs ++ [rbChar], ?_, by decide, by decide, by decide, by decide⟩
    simp [dumps]

/-- Sizes are positive. -/
theorem jsize_pos (v : Json) : 1 ≤ jsize v := by
  cases v <;> simp [jsize] <;> omega

/-- Array-chain sizes are positive. -/
theorem jsizeArr_pos (xs : List Json) : 1 ≤ jsizeArr xs := by
  cases xs <;> simp [jsizeArr] <;> omega

/-- Object-chain sizes are positive. -/
theorem jsizeObj_pos (kvs : List (List Char × Json)) : 1 ≤ jsizeObj kvs := by
  cases kvs with
  | nil => simp [jsizeObj]
  | cons kv rest =>
    obtain ⟨k, v⟩ := kv
    simp [jsizeObj]
    omega

/-- The `intToChars` starts with a digit or a minus sign. -/
theorem intToChars_cons (n : Int) :
    ∃ c t, intToChars n = c :: t ∧ (c.isDigit = true ∨ c = '-') := by
  cases n with
  | ofNat m =>
    obtain ⟨c, t, hct⟩ : ∃ c t, natToChars m = c :: t := by
      cases h : natToChars m with
      | nil => exact absurd h (natToChars_ne_nil m)
      | cons c t => exact ⟨c, t, rfl⟩
    refine ⟨c, t, ?_, Or.inl (natToChars_isDigit m c (by rw [hct]; simp))⟩
    rw [show intToChars (Int.ofNat m) = natToChars m from by simp [intToChars]]
    exact hct
  | negSucc m =>
    exact ⟨'-', natToChars (m + 1), by simp [intToChars], Or.inr rfl⟩

/-- On an input starting with a digit or minus sign, `parseVal` defers to
`parseNum`. -/
theorem parseVal_to_parseNum (f : Nat) (c : Char) (r : List Char)
    (h : c.isDigit = true ∨ c = '-') :
    parseVal (f + 1) (c :: r) = parseNum (c :: r) := by
  rw [parseVal.eq_def]
  rcases h with h | h
  · have hd := digit_dispatch c h
    simp [hd.1, hd.2.1, hd.2.2.1, hd.2.2.2.1, hd.2.2.2.2.1, hd.2.2.2.2.2.1]
  · subst h
    have hq : ¬ ('-' : Char) = qChar := by decide
    have hlb : ¬ ('-' : Char) = lbChar := by decide
    simp [hq, hlb]

/-- The serialization of a non-empty element chain starts with the head
character of its first element. -/
theorem dumpsArr_head (x : Json) (xs : List Json) :
    ∃ c t, dumpsArr (x :: xs) = c :: t ∧ c ≠ ']' ∧ c ≠ rbChar := by
  obtain ⟨c, t, hct, h1, h2, _, _⟩ := dumps_cons x
  cases xs with
  | nil => exact ⟨c, t, by simp [dumpsArr, hct], h1, h2⟩
  | cons y r =>
    exact ⟨c, t ++ ',' :: dumpsArr (y :: r), by simp [dumpsArr, hct], h1, h2⟩

/-- The serialization of a non-empty member chain starts with a quote. -/
theorem dumpsObj_head (kv : List Char × Json) (kvs : List (List Char × Json)) :
    ∃ t, dumpsObj (kv :: kvs) = qChar :: t := by
  obtain ⟨k, v⟩ := kv
  cases kvs with
  | nil =>
    exact ⟨escStr k ++ qChar :: ':' :: dumps v, by simp [dumpsObj, dumpsMember]⟩
  | cons kv2 r =>
    exact ⟨escStr k ++ qChar :: ':' :: (dumps v ++ ',' :: dumpsObj (kv2 :: r)),
      by simp [dumpsObj, dumpsMember]⟩

/-- The `goodRest` on a cons is determined by its head. -/
theorem goodRest_cons (c : Char) (t : List Char) : goodRest (c :: t) = !c.isDigit := rfl

/-- The parser inverts `dumps` (and the chain parsers invert the chain
serializers) whatever follows, as long as the continuation cannot extend
a number; strong induction on a size bound. -/
theorem parse_roundtrip (N : Nat) :
    (∀ v : Json, sizeOf v ≤ N → ∀ f rest, jsize v ≤ f → goodRest rest = true →
      parseVal f (dumps v ++ rest) = some (v, rest)) ∧
    (∀ (x : Json) (xs : List Json), 1 + sizeOf x + sizeOf xs ≤ N →
      ∀ f acc rest, jsizeArr (x :: xs) ≤ f → goodRest rest = true →
      parseArrItems f (dumpsArr (x :: xs) ++ (']' :: rest)) acc =
        some (Json.arr (acc ++ (x :: xs)), rest)) ∧
    (∀ (k : List Char) (v : Json) (kvs : List (List Char × Json)),
      1 + sizeOf v + sizeOf kvs ≤ N →
      ∀ f acc rest, jsizeObj ((k, v) :: kvs) ≤ f → goodRest rest = true →
      parseObjItems f (dumpsObj ((k, v) :: kvs) ++ (rbChar :: rest)) acc =
        some (Json.obj (acc ++ ((k, v) :: kvs)), rest)) := by
  induction N using Nat.strong_induction_on with
  | _ N ih =>
    refine ⟨?_, ?_, ?_⟩
    · intro v hN f rest hf hr
      obtain ⟨f2, rfl⟩ : ∃ f2, f = f2 + 1 := ⟨f - 1, by have := jsize_pos v; omega⟩
      cases v with
      | null =>
        rw [show dumps Json.null = 'n' :: ['u', 'l', 'l'] from by simp [dumps]]
        rw [List.cons_append, parseVal.eq_def]
        simp [dropLit]
      | bool b =>
        cases b with
        | true =>
          rw [show dumps (Json.bool true) = 't' :: ['r', 'u', 'e'] from by
            simp [dumps]]
          rw [List.cons_append, parseVal.eq_def]
          simp [dropLit]
        | false =>
          rw [show dumps (Json.bool false) = 'f' :: ['a', 'l', 's', 'e'] from by
            simp [dumps]]
          rw [List.cons_append, parseVal.eq_def]
          simp [dropLit]
      | num n =>
        obtain ⟨c, t, hct, hor⟩ := intToChars_cons n
        rw [show dumps (Json.num n) = intToChars n from by simp [dumps], hct,
          List.cons_append, parseVal_to_parseNum f2 c (t ++ rest) hor,
          ← List.cons_append, ← hct]
        exact parseNum_intToChars n rest hr
      | str s =>
        rw [show dumps (Json.str s) = qChar :: (escStr s ++ [qChar]) from by
          simp [dumps]]
        rw [List.cons_append, parseVal.eq_def]
        have h1 : ¬ qChar = 'n' := by decide
        have h2 : ¬ qChar = 't' := by decide
        have h3 : ¬ qChar = 'f' := by decide
        simp only [h1, h2, h3, ite_true, ite_false, if_neg, if_pos rfl,
          List.append_assoc, List.singleton_append]
        rw [parseStrBody_escStr]
        rfl
      | arr xs =>
        cases xs with
        | nil =>
          rw [show dumps (Json.arr []) = ['[', ']'] from by simp [dumps, dumpsArr]]
          rw [show (['[', ']'] : List Char) ++ rest = '[' :: (']' :: rest) from rfl]
          rw [parseVal.eq_def]
          have h4 : ¬ ('[' : Char) = qChar := by decide
          simp [h4]
        | cons x xs2 =>
          obtain ⟨c, t, hct, hc1, _⟩ := dumpsArr_head x xs2
          rw [show dumps (Json.arr (x :: xs2)) =
              '[' :: (dumpsArr (x :: xs2) ++ [']']) from by simp [dumps]]
          rw [List.cons_append, List.append_assoc, List.singleton_append,
            parseVal.eq_def, hct]
          have hstep : jsizeArr (x :: xs2) ≤ f2 := by
            simp only [jsize] at hf
            omega
          have hlt : 1 + sizeOf x + sizeOf xs2 < N := by
            simp at hN
            omega
          have h4 : ¬ ('[' : Char) = qChar := by decide
          have hres := (ih _ hlt).2.1 x xs2 le_rfl f2 [] rest hstep hr
          rw [hct, List.cons_append] at hres
          simp [h4, hc1, hres]
      | obj kvs =>
        cases kvs with
        | nil =>
          rw [show dumps (Json.obj []) = [lbChar, rbChar] from by
            simp [dumps, dumpsObj]]
          rw [show ([lbChar, rbChar] : List Char) ++ rest =
              lbChar :: (rbChar :: rest) from rfl]
          rw [parseVal.eq_def]
          have h1 : ¬ lbChar = 'n' := by decide
          have h2 : ¬ lbChar = 't' := by decide
          have h3 : ¬ lbChar = 'f' := by decide
          have h4 : ¬ lbChar = qChar := by decide
          have h5 : ¬ lbChar = '[' := by decide
          simp [h1, h2, h3, h4, h5]
        | cons kv kvs2 =>
          obtain ⟨k, v0⟩ := kv
          obtain ⟨t, ht⟩ := dumpsObj_head (k, v0) kvs2
          rw [show dumps (Json.obj ((k, v0) :: kvs2)) =
              lbChar :: (dumpsObj ((k, v0) :: kvs2) ++ [rbChar]) from by
            simp [dumps]]
          rw [List.cons_append, List.append_assoc, List.singleton_append,
            parseVal.eq_def, ht]
          have hstep : jsizeObj ((k, v0) :: kvs2) ≤ f2 := by
            simp only [jsize] at hf
            omega
          have hlt : 1 + sizeOf v0 + sizeOf kvs2 < N := by
            simp at hN
            omega
          have h1 : ¬ lbChar = 'n' := by decide
          have h2 : ¬ lbChar = 't' := by decide
          have h3 : ¬ lbChar = 'f' := by decide
          have h4 : ¬ lbChar = qChar := by decide
          have h5 : ¬ lbChar = '[' := by decide
          have h6 : ¬ qChar = rbChar := by decide
          have hres := (ih _ hlt).2.2 k v0 kvs2 le_rfl f2 [] rest hstep hr
          rw [ht, List.cons_append] at hres
          simp [h1, h2, h3, h4, h5, h6, hres]
    · intro x xs hN f acc rest hf hr
      obtain ⟨f2, rfl⟩ : ∃ f2, f = f2 + 1 :=
        ⟨f - 1, by have := jsizeArr_pos (x :: xs); omega⟩
      have hhd : jsize x ≤ f2 := by
        have := jsizeArr_pos xs
        simp only [jsizeArr] at hf
        omega
      have hltx : sizeOf x < N := by omega
      cases xs with
      | nil =>
        rw [show dumpsArr [x] = dumps x from by simp [dumpsArr]]
        have hpv := (ih _ hltx).1 x le_rfl f2 (']' :: rest) hhd
          (by rw [goodRest_cons]; decide)
        rw [parseArrItems.eq_def]
        simp [hpv]
      | cons y ys =>
        rw [show dumpsArr (x :: y :: ys) = dumps x ++ ',' :: dumpsArr (y :: ys)
          from by simp [dumpsArr]]
        rw [List.append_assoc, List.cons_append]
        have hpv := (ih _ hltx).1 x le_rfl f2
          (',' :: (dumpsArr (y :: ys) ++ ']' :: rest)) hhd
          (by rw [goodRest_cons]; decide)
        have htail : jsizeArr (y :: ys) ≤ f2 := by
          have := jsize_pos x
          simp only [jsizeArr] at hf ⊢
          omega
        have hlt2 : 1 + sizeOf y + sizeOf ys < N := by
          have hs : sizeOf (y :: ys) = 1 + sizeOf y + sizeOf ys := by simp
          omega
        have hrec := (ih _ hlt2).2.1 y ys le_rfl f2 (acc ++ [x]) rest htail hr
        rw [parseArrItems.eq_def]
        simp [hpv, hrec]
    · intro k v kvs hN f acc rest hf hr
      obtain ⟨f2, rfl⟩ : ∃ f2, f = f2 + 1 :=
        ⟨f - 1, by have := jsizeObj_pos ((k, v) :: kvs); omega⟩
      have hhd : jsize v ≤ f2 := by
        have := jsizeObj_pos kvs
        simp only [jsizeObj] at hf
        omega
      have hltv : sizeOf v < N := by omega
      have hrbc : ¬ (rbChar = ',') := by decide
      cases kvs with
      | nil =>
        rw [show dumpsObj [(k, v)] = qChar :: (escStr k ++ (qChar :: ':' :: dumps v))
          from by simp [dumpsObj, dumpsMember]]
        rw [List.cons_append, List.append_assoc]
        have hstr := parseStrBody_escStr k (':' :: (dumps v ++ rbChar :: rest))
        have hpv := (ih _ hltv).1 v le_rfl f2 (rbChar :: rest) hhd
          (by rw [goodRest_cons]; decide)
        rw [parseObjItems.eq_def]
        simp [hstr, hpv, hrbc]
      | cons kv2 kvs2 =>
        obtain ⟨k2, v2⟩ := kv2
        rw [show dumpsObj ((k, v) :: (k2, v2) :: kvs2) =
            qChar :: (escStr k ++ (qChar :: ':' ::
              (dumps v ++ ',' :: dumpsObj ((k2, v2) :: kvs2))))
          from by simp [dumpsObj, dumpsMember]]
        rw [List.cons_append, List.append_assoc]
        have hstr := parseStrBody_escStr k
          (':' :: (dumps v ++ ',' :: (dumpsObj ((k2, v2) :: kvs2) ++ rbChar :: rest)))
        have hpv := (ih _ hltv).1 v le_rfl f2
          (',' :: (dumpsObj ((k2, v2) :: kvs2) ++ rbChar :: rest)) hhd
          (by rw [goodRest_cons]; decide)
        have htail : jsizeObj ((k2, v2) :: kvs2) ≤ f2 := by
          have := jsize_pos v
          simp only [jsizeObj] at hf ⊢
          omega
        have hlt2 : 1 + sizeOf v2 + sizeOf kvs2 < N := by
          have hs : sizeOf ((k2, v2) :: kvs2) = 1 + (1 + sizeOf k2 + sizeOf v2) + sizeOf kvs2 := by
            simp
          omega
        have hrec := (ih _ hlt2).2.2 k2 v2 kvs2 le_rfl f2 (acc ++ [(k, v)]) rest
          htail hr
        rw [parseObjItems.eq_def]
        simp [hstr, hpv, hrec]

/-- The parser inverts `dumps`, leaving any continuation that cannot
extend a number untouched. -/
theorem parse_dumps (v : Json) (f : Nat) (rest : List Char)
    (hf : jsize v ≤ f) (hr : goodRest rest = true) :
    parseVal f (dumps v ++ rest) = some (v, rest) :=
  (parse_roundtrip (sizeOf v)).1 v le_rfl f rest hf hr

/-- The parser fuel bound is dominated by twice the serialized length;
strong induction on a size bound. -/
theorem jsize_le_dumps_all (N : Nat) :
    (∀ v : Json, sizeOf v ≤ N → jsize v ≤ 2 * (dumps v).length) ∧
    (∀ (x : Json) (xs : List Json), 1 + sizeOf x + sizeOf xs ≤ N →
      jsizeArr (x :: xs) ≤ 2 * (dumpsArr (x :: xs)).length + 2) ∧
    (∀ (k : List Char) (v : Json) (kvs : List (List Char × Json)),
      1 + sizeOf v + sizeOf kvs ≤ N →
      jsizeObj ((k, v) :: kvs) ≤ 2 * (dumpsObj ((k, v) :: kvs)).length + 2) := by
  induction N using Nat.strong_induction_on with
  | _ N ih =>
    refine ⟨?_, ?_, ?_⟩
    · intro v hN
      cases v with
      | null => simp [jsize, dumps]
      | bool b => cases b <;> simp [jsize, dumps]
      | num n =>
        obtain ⟨c, t, hct, _⟩ := intToChars_cons n
        have hd : dumps (Json.num n) = intToChars n := by simp [dumps]
        rw [jsize, hd, hct]
        simp
        omega
      | str s =>
        have hd : (dumps (Json.str s)).length = (escStr s).length + 2 := by
          simp [dumps]
        rw [jsize, hd]
        omega
      | arr xs =>
        cases xs with
        | nil => simp [jsize, jsizeArr, dumps, dumpsArr]
        | cons x xs2 =>
          have hlt : 1 + sizeOf x + sizeOf xs2 < N := by
            simp at hN
            omega
          have hchain := (ih _ hlt).2.1 x xs2 le_rfl
          have hd : (dumps (Json.arr (x :: xs2))).length =
              (dumpsArr (x :: xs2)).length + 2 := by
            simp [dumps]
          rw [jsize, hd]
          omega
      | obj kvs =>
        cases kvs with
        | nil => simp [jsize, jsizeObj, dumps, dumpsObj]
        | cons kv kvs2 =>
          obtain ⟨k, v0⟩ := kv
          have hlt : 1 + sizeOf v0 + sizeOf kvs2 < N := by
            simp at hN
            omega
          have hchain := (ih _ hlt).2.2 k v0 kvs2 le_rfl
          have hd : (dumps (Json.obj ((k, v0) :: kvs2))).length =
              (dumpsObj ((k, v0) :: kvs2)).length + 2 := by
            simp [dumps]
          rw [jsize, hd]
          omega
    · intro x xs hN
      have hltx : sizeOf x < N := by omega
      have hx := (ih _ hltx).1 x le_rfl
      cases xs with
      | nil =>
        have hd : dumpsArr [x] = dumps x := by simp [dumpsArr]
        rw [jsizeArr, jsizeArr, hd]
        omega
      | cons y ys =>
        have hlt2 : 1 + sizeOf y + sizeOf ys < N := by
          have hs : sizeOf (y :: ys) = 1 + sizeOf y + sizeOf ys := by simp
          omega
        have hchain := (ih _ hlt2).2.1 y ys le_rfl
        have hd : (dumpsArr (x :: y :: ys)).length =
            (dumps x).length + 1 + (dumpsArr (y :: ys)).length := by
          simp [dumpsArr]
          omega
        rw [jsizeArr, hd]
        omega
    · intro k v kvs hN
      have hltv : sizeOf v < N := by omega
      have hv := (ih _ hltv).1 v le_rfl
      have hm : (dumpsMember k v).length = (escStr k).length + 3 + (dumps v).length := by
        simp [dumpsMember]
        omega
      cases kvs with
      | nil =>
        have hd : dumpsObj [(k, v)] = dumpsMember k v := by simp [dumpsObj]
        rw [jsizeObj, jsizeObj, hd, hm]
        omega
      | cons kv2 kvs2 =>
        obtain ⟨k2, v2⟩ := kv2
        have hlt2 : 1 + sizeOf v2 + sizeOf kvs2 < N := by
          have hs : sizeOf ((k2, v2) :: kvs2) =
              1 + (1 + sizeOf k2 + sizeOf v2) + sizeOf kvs2 := by simp
          omega
        have hchain := (ih _ hlt2).2.2 k2 v2 kvs2 le_rfl
        have hd : (dumpsObj ((k, v) :: (k2, v2) :: kvs2)).length =
            (dumpsMember k v).length + 1 + (dumpsObj ((k2, v2) :: kvs2)).length := by
          simp [dumpsObj]
          omega
        rw [jsizeObj, hd, hm]
        omega

/-- Round-trip identity of the modelled codec: `loads` after `dumps` is
the identity on every JSON value. -/
theorem loads_dumps (v : Json) : loads (dumps v) = some v := by
  have hb := (jsize_le_dumps_all (sizeOf v)).1 v le_rfl
  have h := parse_dumps v (2 * (dumps v).length + 1) [] (by omega) rfl
  rw [List.append_nil] at h
  unfold loads
  rw [h]

/-! ### Claim theorems for the WalletData operations and the writer -/

/-- C4: `create_wallet_datas1` on `(k, v)` (run against a store without
`k`) followed by `read_wallet_data1` on `k` decodes back exactly `v`,
for every JSON-representable value: the `dumps` encoding composed with
the `loads` decoding is the identity. -/
theorem create_then_read_roundtrip (db : List WalletDataDbRow) (k : String)
    (v : Json) (ts : Int) (hfresh : ∀ r ∈ db, r.key ≠ k) :
    ∃ rows db2,
      create_wallet_datas1 ts [⟨PyVal.str k, v⟩] = Except.ok rows ∧
      runInsertWalletRows db rows = Except.ok db2 ∧
      (read_wallet_data1 db2 k).2 = Except.ok v := by
  refine ⟨[⟨k, dumps v, ts, ts⟩], db ++ [⟨k, dumps v, ts, ts⟩], ?_, ?_, ?_⟩
  · simp [create_wallet_datas1]
  · have hany : (db.any fun q => q.key == k) = false := by
      rw [List.any_eq_false]
      intro q hq
      simp [hfresh q hq]
    simp [runInsertWalletRows, insertWalletRow, hany]
  · have h1 : db.find? (fun r => r.key == k) = none :=
      List.find?_eq_none.mpr fun r hr => by simp [hfresh r hr]
    have hfind : (db ++ [(⟨k, dumps v, ts, ts⟩ : WalletDataDbRow)]).find?
        (fun r => r.key == k) = some ⟨k, dumps v, ts, ts⟩ := by
      rw [List.find?_append, h1]
      simp [List.find?]
    simp [read_wallet_data1, hfind, loads_dumps]

/-- Witness for C4 at a concrete nested value on an empty store. -/
theorem create_then_read_roundtrip_witness :
    (∀ r ∈ ([] : List WalletDataDbRow), r.key ≠ "k") ∧
    (∃ rows db2,
      create_wallet_datas1 5 [⟨PyVal.str "k",
        Json.obj [(['a'], Json.arr [Json.num 1, Json.null, Json.bool true])]⟩] =
        Except.ok rows ∧
      runInsertWalletRows [] rows = Except.ok db2 ∧
      (read_wallet_data1 db2 "k").2 = Except.ok
        (Json.obj [(['a'], Json.arr [Json.num 1, Json.null, Json.bool true])])) :=
  ⟨by simp, create_then_read_roundtrip [] "k"
    (Json.obj [(['a'], Json.arr [Json.num 1, Json.null, Json.bool true])]) 5
    (by simp)⟩

/-- C5 counterexample: `update_wallet_datas1` performs no key-type
validation.  With the non-string key `5` it raises no construction error
and queues the parameter row, malformed key included, so the claim that
every WalletData write operation rejects non-string keys before queuing
is false. -/
theorem update_wallet_datas1_no_validation :
    update_wallet_datas1 0 [⟨PyVal.int 5, Json.null⟩] =
      [⟨['n', 'u', 'l', 'l'], 0, PyVal.int 5⟩] := by
  simp [update_wallet_datas1, dumps]

/-- C5 (amended): `create_wallet_datas1` fails before anything is queued
exactly when some entry has a non-string key, while `update_wallet_datas1`
never fails and queues one parameter row per entry regardless of key
type. -/
theorem wallet_data_key_validation (ts : Int) (entries : List WalletDataRow1) :
    ((create_wallet_datas1 ts entries).isOk = false ↔
      ∃ e ∈ entries, e.key.isStr = false) ∧
    (update_wallet_datas1 ts entries).length = entries.length := by
  constructor
  · induction entries with
    | nil => simp [create_wallet_datas1, Except.isOk, Except.toBool]
    | cons e rest ih =>
      cases hk : e.key with
      | str s =>
        cases hrest : create_wallet_datas1 ts rest with
        | error msg =>
          have h1 : (create_wallet_datas1 ts rest).isOk = false := by
            rw [hrest]; rfl
          simp [create_wallet_datas1, hk, hrest, Except.isOk, Except.toBool]
          exact Or.inr (ih.mp h1)
        | ok rows =>
          have h1 : ¬ (create_wallet_datas1 ts rest).isOk = false := by
            rw [hrest]; simp [Except.isOk, Except.toBool]
          have h2 : ∀ x ∈ rest, x.key.isStr = true := by
            have h3 := (not_iff_not.mpr ih).mp h1
            push_neg at h3
            intro x hx
            simpa using h3 x hx
          simp [create_wallet_datas1, hk, hrest, Except.isOk, Except.toBool]
          exact ⟨rfl, h2⟩
      | bytes b =>
        simp [create_wallet_datas1, hk, Except.isOk, Except.toBool]
        exact Or.inl rfl
      | int i =>
        simp [create_wallet_datas1, hk, Except.isOk, Except.toBool]
        exact Or.inl rfl
      | pyNone =>
        simp [create_wallet_datas1, hk, Except.isOk, Except.toBool]
        exact Or.inl rfl
  · simp [update_wallet_datas1]

/-- C6: every create operation writes `date_created = date_updated`, and
all rows of one call carry the single timestamp that call sampled before
submission — except `create_payment_requests1`, which samples nothing and
instead duplicates each entry's own `date_created` into `date_updated`. -/
theorem create_timestamps (ts : Int) :
    (∀ (entries : List AccountRow1), ∀ r ∈ create_accounts1 ts entries,
      r.date_created = ts ∧ r.date_updated = ts) ∧
    (∀ (entries : List KeyInstanceRow1), ∀ r ∈ create_keys1 ts entries,
      r.date_created = ts ∧ r.date_updated = ts) ∧
    (∀ (entries : List MasterKeyRow1), ∀ r ∈ create_master_keys1 ts entries,
      r.date_created = ts ∧ r.date_updated = ts) ∧
    (∀ (entries : List TransactionOutputRow1),
      ∀ r ∈ create_transaction_outputs1 ts entries,
      r.date_created = ts ∧ r.date_updated = ts) ∧
    (∀ (entries : List WalletDataRow1) (rows : List WalletDataDbRow),
      create_wallet_datas1 ts entries = Except.ok rows →
      ∀ r ∈ rows, r.date_created = ts ∧ r.date_updated = ts) ∧
    (∀ (entries : List PaymentRequestRow1) (i : Nat)
      (h1 : i < (create_payment_requests1 entries).length)
      (h2 : i < entries.length),
      ((create_payment_requests1 entries).get ⟨i, h1⟩).date_created =
        (entries.get ⟨i, h2⟩).date_created ∧
      ((create_payment_requests1 entries).get ⟨i, h1⟩).date_updated =
        (entries.get ⟨i, h2⟩).date_created) := by
  refine ⟨?_, ?_, ?_, ?_, ?_, ?_⟩
  · intro entries r hr
    simp [create_accounts1, List.mem_map] at hr
    obtain ⟨e, _, rfl⟩ := hr
    exact ⟨rfl, rfl⟩
  · intro entries r hr
    simp [create_keys1, List.mem_map] at hr
    obtain ⟨e, _, rfl⟩ := hr
    exact ⟨rfl, rfl⟩
  · intro entries r hr
    simp [create_master_keys1, List.mem_map] at hr
    obtain ⟨e, _, rfl⟩ := hr
    exact ⟨rfl, rfl⟩
  · intro entries r hr
    simp [create_transaction_outputs1, List.mem_map] at hr
    obtain ⟨e, _, rfl⟩ := hr
    exact ⟨rfl, rfl⟩
  · intro entries
    induction entries with
    | nil =>
      intro rows hok r hr
      simp [create_wallet_datas1] at hok
      subst hok
      simp at hr
    | cons e rest ih =>
      intro rows hok r hr
      cases hk : e.key with
      | str s =>
        rw [create_wallet_datas1, hk] at hok
        cases hrest : create_wallet_datas1 ts rest with
        | error msg => rw [hrest] at hok; cases hok
        | ok rows2 =>
          rw [hrest] at hok
          cases hok
          rcases List.mem_cons.mp hr with hr1 | hr2
          · subst hr1; exact ⟨rfl, rfl⟩
          · exact ih rows2 hrest r hr2
      | bytes b => rw [create_wallet_datas1, hk] at hok; cases hok
      | int i => rw [create_wallet_datas1, hk] at hok; cases hok
      | pyNone => rw [create_wallet_datas1, hk] at hok; cases hok
  · intro entries i h1 h2
    simp [create_payment_requests1, List.get_eq_getElem, List.getElem_map]

/-- Witness for C6 at concrete singleton batches. -/
theorem create_timestamps_witness :
    (∀ r ∈ create_accounts1 9 [⟨1, none, 2, "acct"⟩],
      r.date_created = 9 ∧ r.date_updated = 9) ∧
    (((create_payment_requests1 [⟨1, 2, 0, none, none, none, 77⟩]).get
        ⟨0, by decide⟩).date_created =
      (([⟨1, 2, 0, none, none, none, 77⟩] : List PaymentRequestRow1).get
        ⟨0, by decide⟩).date_created ∧
      ((create_payment_requests1 [⟨1, 2, 0, none, none, none, 77⟩]).get
        ⟨0, by decide⟩).date_updated =
      (([⟨1, 2, 0, none, none, none, 77⟩] : List PaymentRequestRow1).get
        ⟨0, by decide⟩).date_created) :=
  ⟨(create_timestamps 9).1 [⟨1, none, 2, "acct"⟩],
    (create_timestamps 9).2.2.2.2.2 [⟨1, 2, 0, none, none, none, 77⟩] 0
      (by decide) (by decide)⟩

/-- C7: a read of a key with no matching row returns Python `None` (the
JSON `null` value) rather than an error, and a read never changes the
table. -/
theorem read_wallet_data1_missing (db : List WalletDataDbRow) (key : String)
    (h : ∀ r ∈ db, r.key ≠ key) :
    read_wallet_data1 db key = (db, Except.ok Json.null) ∧
    ∀ k2 : String, (read_wallet_data1 db k2).1 = db := by
  constructor
  · have hfind : db.find? (fun r => r.key == key) = none :=
      List.find?_eq_none.mpr fun r hr => by simp [h r hr]
    simp [read_wallet_data1, hfind]
  · intro k2
    unfold read_wallet_data1
    cases hf : db.find? fun r => r.key == k2 <;> simp

/-- Witness for C7 on a one-row store and an absent key. -/
theorem read_wallet_data1_missing_witness :
    (∀ r ∈ [(⟨"a", ['0'], 0, 0⟩ : WalletDataDbRow)], r.key ≠ "b") ∧
    (read_wallet_data1 [⟨"a", ['0'], 0, 0⟩] "b" =
      ([⟨"a", ['0'], 0, 0⟩], Except.ok Json.null) ∧
    ∀ k2 : String, (read_wallet_data1 [⟨"a", ['0'], 0, 0⟩] k2).1 =
      [⟨"a", ['0'], 0, 0⟩]) :=
  ⟨by simp, read_wallet_data1_missing [⟨"a", ['0'], 0, 0⟩] "b" (by simp)⟩

/-- An `UPDATE` whose key matches no row leaves the table unchanged. -/
theorem applyWalletUpdate_nomatch (db : List WalletDataDbRow)
    (u : WalletDataUpdateRow) (h : ∀ r ∈ db, PyVal.str r.key ≠ u.key) :
    applyWalletUpdate db u = db := by
  unfold applyWalletUpdate
  calc db.map (fun r =>
        if PyVal.str r.key = u.key then
          ⟨r.key, u.value, r.date_created, u.date_updated⟩
        else r)
      = db.map id := List.map_congr_left fun r hr => by simp [h r hr]
    _ = db := List.map_id db

/-- C8: updating a key with no existing row is a no-op: no row is
created, the table is unchanged, and the completion resolves
successfully. -/
theorem update_wallet_datas1_missing_key (db : List WalletDataDbRow)
    (k : String) (v : Json) (ts : Int) (h : ∀ r ∈ db, r.key ≠ k) :
    update_wallet_datas1_run db ts [⟨PyVal.str k, v⟩] = Except.ok db := by
  unfold update_wallet_datas1_run update_wallet_datas1
  simp only [List.map_cons, List.map_nil, runWalletUpdates]
  rw [applyWalletUpdate_nomatch db ⟨dumps v, ts, PyVal.str k⟩
    fun r hr => by simp [h r hr]]

/-- Witness for C8 on a one-row store and an absent key. -/
theorem update_wallet_datas1_missing_key_witness :
    (∀ r ∈ [(⟨"a", ['0'], 0, 0⟩ : WalletDataDbRow)], r.key ≠ "b") ∧
    update_wallet_datas1_run [⟨"a", ['0'], 0, 0⟩] 3 [⟨PyVal.str "b", Json.null⟩] =
      Except.ok [⟨"a", ['0'], 0, 0⟩] :=
  ⟨by simp, update_wallet_datas1_missing_key [⟨"a", ['0'], 0, 0⟩] "b" Json.null 3
    (by simp)⟩

/-- C9: in the writer model, the head operation runs to completion first
and the rest of the queue executes against its post-state (FIFO, never
concurrent); a failed operation completes its own handle with the error,
leaves the state unchanged for its successor, and does not stop the
queue; and every queued operation gets exactly one completion. -/
theorem runWriter_fifo {σ : Type} (db : σ) (a : σ → Except String σ)
    (ops : List (σ → Except String σ)) :
    runWriter db (a :: ops) =
      ((runWriter (applyWriterOp db a).1 ops).1,
        (applyWriterOp db a).2 :: (runWriter (applyWriterOp db a).1 ops).2) ∧
    (runWriter db ops).2.length = ops.length := by
  constructor
  · cases h : a db with
    | ok db2 => simp [runWriter, applyWriterOp, h]
    | error e => simp [runWriter, applyWriterOp, h]
  · induction ops generalizing db with
    | nil => simp [runWriter]
    | cons op rest ih =>
      cases h : op db with
      | ok db2 => simp [runWriter, h, ih]
      | error e => simp [runWriter, h, ih]

end StorageMigration
